import Mathlib

/-!
Shallow embedding of the core of the `final-dl-manager` download engine
(`src/dl/file2dl.rs`, `src/dl/url.rs`, `src/menu_bar.rs`, `src/main.rs`)
and proofs about it.

The embedding follows the Rust source:
* the transfer loop `File2Dl::single_thread_dl` becomes a step function over
  an explicit state record plus per-iteration oracle inputs (sampled `running`
  flag, clock comparisons, write success), folded over the list of items the
  response stream yields;
* the recovery scan `File2Dl::from` becomes a pure function over a model of
  the download directory (an association list of file names to file nodes);
* the file namer `generate_name_on_disk` becomes a fuel-indexed search for
  the first free candidate name;
* the URL validation regex and the range-support negotiation of `url.rs`
  become executable functions on character lists / option-typed headers.
-/

namespace DlManager

/-! ### Transfer loop (`File2Dl::single_thread_dl`, file2dl.rs lines 61-108)

State of one download task as the loop sees it.  The Rust fields
`speed`, `size_on_disk`, `bytes_per_sec`, `running`, `complete` are atomics
on the task; `accumulated_bytes` is the loop-local accumulator variable.
`fileData` models the bytes of the output file that the loop has appended
(the file is opened in append mode). -/

structure DlState where
  speed : Nat
  size_on_disk : Nat
  bytes_per_sec : Nat
  running : Bool
  complete : Bool
  fileData : List Nat
  accumulated_bytes : Nat
deriving Repr, DecidableEq

/-- Per-iteration oracle inputs: the value of the shared `running` flag at the
moment the loop samples it (the external collaborator may have toggled it),
the two wall-clock comparisons `start_time.elapsed() >= 1s` (throughput
window check) and `elapsed < 1s` (rate-limit remainder check), and whether
the `write_all` call succeeds. -/
structure IterEnv where
  runningNow : Bool
  elapsed1 : Bool
  elapsedLt1 : Bool
  writeOk : Bool
deriving Repr, DecidableEq

/-- Errors the loop body can surface to the caller: a chunk-read error from
the stream (`packed_chunk?`, carrying the stream's error code) or a write
error (`file.write_all(&chunk).await?`). -/
inductive DlErr where
  | chunk (code : Nat)
  | write
deriving Repr, DecidableEq

/-- Result of one successful loop iteration: the updated state plus
observable flags — `pausedSkip` is the `!running` branch (zero the
throughput, sleep 2 s, `continue`), `windowReset` the 1-second throughput
publish/reset, `limitReset` the rate-limit accumulator reset, and
`sleptRemainder` whether the rate-limit branch slept the window remainder. -/
structure StepOut where
  st : DlState
  pausedSkip : Bool
  windowReset : Bool
  limitReset : Bool
  sleptRemainder : Bool
deriving Repr, DecidableEq

/-- One iteration of the `while let Some(packed_chunk) = stream.next()` body
(file2dl.rs lines 76-102).  `item` is the element the stream yielded:
`Except.error e` for a failed chunk read, `Except.ok chunk` for a chunk of
bytes.  On an error exit the pre-error state is returned with the error. -/
def stepIter (st0 : DlState) (item : Except Nat (List Nat)) (env : IterEnv) :
    Except (DlErr × DlState) StepOut :=
  -- external writes to the shared `running` flag take effect before the sample
  let st := { st0 with running := env.runningNow }
  if st.running = false then
    -- `self.bytes_per_sec.store(0); sleep(2s); continue`
    Except.ok ⟨{ st with bytes_per_sec := 0 }, true, false, false, false⟩
  else
    match item with
    | Except.error e => Except.error (DlErr.chunk e, st)
    | Except.ok chunk =>
      if env.writeOk = false then
        Except.error (DlErr.write, st)
      else
        -- `file.write_all(&chunk)`, `size_on_disk.fetch_add(chunk.len())`,
        -- `accumulated_bytes += chunk.len()`
        let st1 := { st with
          fileData := st.fileData ++ chunk,
          size_on_disk := st.size_on_disk + chunk.length,
          accumulated_bytes := st.accumulated_bytes + chunk.length }
        -- `if start_time.elapsed() >= 1s { bytes_per_sec.store(acc); acc = 0; restart clock }`
        let st2 := if env.elapsed1 then
            { st1 with bytes_per_sec := st1.accumulated_bytes, accumulated_bytes := 0 }
          else st1
        -- `let speed_limit = self.speed.load(); if speed_limit > 0 && acc >= speed_limit { ... }`
        let fire := 0 < st2.speed ∧ st2.speed ≤ st2.accumulated_bytes
        let st3 := if fire then { st2 with accumulated_bytes := 0 } else st2
        Except.ok ⟨st3, false, env.elapsed1, decide fire,
          decide fire && env.elapsedLt1⟩

/-- The whole loop of `single_thread_dl`: fold `stepIter` over the list of
stream items (each with its oracle inputs).  When the stream is exhausted the
epilogue (file2dl.rs lines 105-107) stores `complete = true`,
`running = false`, `bytes_per_sec = 0` and returns `Ok(())`. -/
def single_thread_dl : DlState → List (Except Nat (List Nat) × IterEnv) →
    Except (DlErr × DlState) DlState
  | st, [] =>
    Except.ok { st with complete := true, running := false, bytes_per_sec := 0 }
  | st, (item, env) :: rest =>
    match stepIter st item env with
    | Except.error e => Except.error e
    | Except.ok out => single_thread_dl out.st rest

/-! ### File namer (`generate_name_on_disk`, file2dl.rs lines 157-173)

Filenames are Lean `String`s; the directory is the list of names of the
files it contains.  `fileStemExt` models Rust's `Path::file_stem` /
`Path::extension` with the `unwrap_or_default()` collapsing of `None` to
the empty string, for plain file names (no path separator).  The `while`
loop of the Rust function is a fuel-indexed search `genLoopIdx`; real
executions always have enough fuel because the directory is finite. -/

/-- Index of the last occurrence of '.' in a character list, if any. -/
def lastDotIdx (l : List Char) : Option Nat :=
  l.enum.foldl (fun acc p => if p.2 = '.' then some p.1 else acc) none

/-- Rust `Path::file_stem().unwrap_or_default()` and
`Path::extension().unwrap_or_default()` for a plain file name: `""`, `"."`
and `".."` have no file name; otherwise split at the last dot unless it is
the leading character (hidden files keep the dot in the stem). -/
def fileStemExt (f : String) : String × String :=
  if f = "" ∨ f = "." ∨ f = ".." then ("", "")
  else
    match lastDotIdx f.data with
    | none => (f, "")
    | some 0 => (f, "")
    | some i => (⟨f.data.take i⟩, ⟨f.data.drop (i + 1)⟩)

/-- The candidate name `format!("{name}_{idx}.{ext}")` of the namer loop. -/
def cand (stem ext : String) (idx : Nat) : String :=
  stem ++ "_" ++ Nat.repr idx ++ "." ++ ext

/-- The `while path.join(&init).exists()` loop of `generate_name_on_disk`
after the first collision: try `cand stem ext idx` for `idx = start,
start+1, ...` until the candidate is free, returning the index found with
the name.  `fuel` bounds the search so the function is total. -/
def genLoopIdx (stem ext : String) (dirNames : List String) :
    Nat → Nat → Option (Nat × String)
  | 0, _ => none
  | fuel + 1, idx =>
    let c := cand stem ext idx
    if c ∈ dirNames then genLoopIdx stem ext dirNames fuel (idx + 1)
    else some (idx, c)

/-- `generate_name_on_disk` (file2dl.rs lines 157-173): return `init`
unchanged if no file of that name exists in the directory, else the first
free candidate `stem_idx.ext` with `idx` counting up from 1. -/
def generate_name_on_disk (init : String) (dirNames : List String)
    (fuel : Nat) : Option String :=
  if init ∈ dirNames then
    (genLoopIdx (fileStemExt init).1 (fileStemExt init).2 dirNames fuel 1).map
      (fun q => q.2)
  else some init

/-- Repeated collisions on the same base name: call the namer, create the
produced file (add its name to the directory) and call it again, `n` times,
collecting the produced names. -/
def genSeq (init : String) (fuel : Nat) :
    List String → Nat → Option (List String)
  | _, 0 => some []
  | dirNames, n + 1 =>
    match generate_name_on_disk init dirNames fuel with
    | none => none
    | some r => (genSeq init fuel (r :: dirNames) n).map (fun l => r :: l)

/-! ### Metadata store and recovery (`File2Dl::from`, file2dl.rs lines 110-154) -/

/-- The persisted sidecar record (module `dl::metadata`), as deserialized by
`serde_json::from_str` in `File2Dl::from`. -/
structure MetaData where
  link : String
  url_name : String
  name_on_disk : String
  content_length : Nat
  range_support : Bool
  speed : Nat
deriving Repr, DecidableEq

/-- A file in the download directory: either a payload file of some size, or
a sidecar file whose content deserializes to a record (`some`) or is
malformed (`none`). -/
inductive FsNode where
  | payload (size : Nat)
  | sidecar (rec : Option MetaData)
deriving Repr, DecidableEq

/-- The download directory: an association list of file names to nodes. -/
abbrev FsDir := List (String × FsNode)

/-- Look a file up by name. -/
def fsLookup (fs : FsDir) (name : String) : Option FsNode :=
  (fs.find? (fun p => p.1 == name)).map (fun p => p.2)

/-- The names of the files in the directory (what `.exists()` checks see). -/
def fsNames (fs : FsDir) : List String := fs.map (fun p => p.1)

/-- Rust `str::ends_with`, on the underlying character lists. -/
def listEndsWith (s post : List Char) : Bool :=
  decide (s.reverse.take post.length = post.reverse)

/-- `get_metadata_files` (file2dl.rs lines 192-206): the names in the
directory that end with ".metadl". -/
def get_metadata_files (fs : FsDir) : List String :=
  fs.filterMap (fun p => if listEndsWith p.1.data ".metadl".data then some p.1 else none)

/-- The reconstructed task: `File2Dl` with the atomics replaced by their
values (`url` is inlined as its four fields). -/
structure File2Dl where
  link : String
  filename : String
  content_length : Nat
  range_support : Bool
  name_on_disk : String
  dl_dir : String
  speed : Nat
  size_on_disk : Nat
  bytes_per_sec : Nat
  running : Bool
  complete : Bool
deriving Repr, DecidableEq

/-- The `std::io::Error` values `File2Dl::from` can surface for one entry:
a missing file (open / stat), a malformed sidecar (serde error converted
into an io error), or — a model artifact — the namer fuel running out. -/
inductive IoErr where
  | notFound (name : String)
  | deserialize (name : String)
  | fuel
deriving Repr, DecidableEq

/-- The body of the closure `File2Dl::from` maps over the metadata file
names (file2dl.rs lines 113-152): read and deserialize the sidecar, stat
the payload file named by the record, re-run the namer when the record has
no range support, and rebuild the task with
`is_complete = size_on_disk == content_length`. -/
def from_entry (fs : FsDir) (dir : String) (fuel : Nat) (entry : String) :
    Except IoErr File2Dl :=
  match fsLookup fs entry with
  | none => Except.error (IoErr.notFound entry)
  | some (FsNode.payload _) => Except.error (IoErr.deserialize entry)
  | some (FsNode.sidecar none) => Except.error (IoErr.deserialize entry)
  | some (FsNode.sidecar (some m)) =>
    match fsLookup fs m.name_on_disk with
    | some (FsNode.payload k) =>
      let name? := if m.range_support then some m.name_on_disk
        else generate_name_on_disk m.name_on_disk (fsNames fs) fuel
      match name? with
      | none => Except.error IoErr.fuel
      | some nm =>
        Except.ok
          { link := m.link
            filename := m.url_name
            content_length := m.content_length
            range_support := m.range_support
            name_on_disk := nm
            dl_dir := dir
            speed := m.speed
            size_on_disk := k
            bytes_per_sec := 0
            running := false
            complete := decide (k = m.content_length) }
    | _ => Except.error (IoErr.notFound m.name_on_disk)

/-- Rust's `collect::<Result<Vec<_>, _>>()`: stop at the first error. -/
def collectExcept {ε α : Type} : List (Except ε α) → Except ε (List α)
  | [] => Except.ok []
  | Except.error e :: _ => Except.error e
  | Except.ok a :: rest => (collectExcept rest).map (fun l => a :: l)

/-- `File2Dl::from` (file2dl.rs lines 110-154): map `from_entry` over the
scanned metadata file names and collect into a single `Result`. -/
def File2Dl_from (fs : FsDir) (dir : String) (fuel : Nat) :
    Except IoErr (List File2Dl) :=
  collectExcept ((get_metadata_files fs).map (from_entry fs dir fuel))

/-! ### URL prober (`url.rs`) -/

/-- Rust `str::trim`: drop leading and trailing whitespace (modelled for
ASCII whitespace characters). -/
def trimChars (l : List Char) : List Char :=
  ((l.dropWhile Char.isWhitespace).reverse.dropWhile Char.isWhitespace).reverse

/-- `ParseHeaders::accept_ranges` (url.rs lines 73-80): `None` when the
accept-ranges header is absent, else `Some` of whether the header value,
trimmed, equals "bytes".  Header values are modelled as strings. -/
def accept_ranges (header : Option String) : Option Bool :=
  match header with
  | none => none
  | some v => if trimChars v.data = "bytes".data then some true else some false

/-- `manual_range_test` (url.rs lines 93-99): the response to the
`Range: bytes=0-1` GET is `none` for a transport failure, `some body`
otherwise; support is confirmed iff the body is exactly one byte long. -/
def manual_range_test (resp : Option (List Nat)) : Bool :=
  match resp with
  | none => false
  | some bytes => bytes.length == 1

/-- The `range_support` computation of `Url::new` (url.rs lines 37-39):
`headers.accept_ranges().unwrap_or(manual_range_test(&client, link).await)`. -/
def range_support_of (header : Option String) (resp : Option (List Nat)) :
    Bool :=
  (accept_ranges header).getD (manual_range_test resp)

/-- `[a-zA-Z0-9]` of the URL regex. -/
def isAlnumAscii (c : Char) : Bool := c.isAlpha || c.isDigit

/-- The language of `[a-zA-Z0-9]{2,}`: at least two characters, all
alphanumeric. -/
def runGe2 (l : List Char) : Bool := decide (2 ≤ l.length) && l.all isAlnumAscii

/-- The four alternatives of the optional scheme group of `URL_RE`. -/
def urlSchemes : List (List Char) :=
  ["https://www.".data, "http://www.".data, "https://".data, "http://".data]

/-- Every split of a list into two contiguous pieces. -/
def splitsOf (l : List Char) : List (List Char × List Char) :=
  (List.range (l.length + 1)).map (fun i => (l.take i, l.drop i))

/-- The trailing optional group `(\.[a-zA-Z0-9]{2,})?` of `URL_RE`, matched
against the whole remainder. -/
def optTail (l : List Char) : Bool :=
  match l with
  | [] => true
  | c :: r => decide (c = '.') && runGe2 r

/-- The mandatory `\.[a-zA-Z0-9]{2,}` middle of `URL_RE` followed by the
optional tail group, matched against the whole remainder. -/
def dotRest (l : List Char) : Bool :=
  match l with
  | [] => false
  | c :: r2 =>
    decide (c = '.') && (splitsOf r2).any fun w => runGe2 w.1 && optTail w.2

/-- Whether a character list belongs, in full, to the language of `URL_RE`
(url.rs line 11): optional scheme, alphanumeric run, dot, alphanumeric run,
optional dot-run tail. -/
def fullMatch (t : List Char) : Bool :=
  (splitsOf t).any fun p =>
    (p.1.isEmpty || urlSchemes.contains p.1) &&
    (splitsOf p.2).any fun q => runGe2 q.1 && dotRest q.2

/-- `Regex::is_match` for `URL_RE`: some contiguous substring matches the
pattern in full. -/
def url_is_match (s : List Char) : Bool :=
  (splitsOf s).any fun p => (splitsOf p.2).any fun q => fullMatch q.1

/-- The only error `Url::is_valid_url` produces. -/
inductive UrlError where
  | InvalidUrl
deriving Repr, DecidableEq

/-- `Url::is_valid_url` (url.rs lines 49-56): `Ok(())` iff the regex finds
a match anywhere in the input. -/
def is_valid_url (link : String) : Except UrlError Unit :=
  if url_is_match link.data then Except.ok () else Except.error UrlError.InvalidUrl

/-! ### Collaborator-facing delete (`menu_bar.rs` lines 154-177) -/

/-- Modelled from the spec: `init_metadata` (module `dl::metadata`, whose
source is not in the repository snapshot) persists "one sidecar record per
task, named with a fixed recognizable extension"; the scanner
`get_metadata_files` recognizes exactly the extension ".metadl", so the
sidecar written for a task whose output file is named `name` is modelled as
the file `name ++ ".metadl"`. -/
def sidecar_name (name : String) : String := name ++ ".metadl"

/-- The two paths `remove_selected_from_disk` removes for a selected task
(menu_bar.rs lines 157-158): `Downloads/{name}` and
`Downloads/.{name}.metadata`. -/
def deleted_names (name : String) : List String :=
  [name, "." ++ name ++ ".metadata"]

/-- Effect of `remove_selected_from_disk` on the download directory for one
selected task: both paths are removed if present (`remove_file` on a
missing path only surfaces an error popup and the closure continues). -/
def remove_selected_from_disk (fs : FsDir) (name : String) : FsDir :=
  fs.filter (fun p => !(deleted_names name).contains p.1)

/-- Stated from the claim's wording, for comparison with `is_valid_url`:
the input contains, anywhere within it, two alphanumeric runs of length at
least 2 separated by a dot (the scheme being optional and surrounding text
ignored). -/
def spec_has_dotted_alnum_pair (s : List Char) : Prop :=
  ∃ pre r1 r2 post : List Char,
    s = pre ++ r1 ++ '.' :: (r2 ++ post) ∧
    2 ≤ r1.length ∧ (∀ c ∈ r1, isAlnumAscii c = true) ∧
    2 ≤ r2.length ∧ (∀ c ∈ r2, isAlnumAscii c = true)

/-! ### Lemmas about the transfer loop -/

theorem stepIter_ok_complete {st : DlState} {item : Except Nat (List Nat)}
    {env : IterEnv} {out : StepOut} (h : stepIter st item env = Except.ok out) :
    out.st.complete = st.complete := by
  simp only [stepIter] at h
  split at h
  · cases h; rfl
  · split at h
    · cases h
    · split at h
      · cases h
      · cases h; split <;> split <;> rfl

theorem stepIter_ok_speed {st : DlState} {item : Except Nat (List Nat)}
    {env : IterEnv} {out : StepOut} (h : stepIter st item env = Except.ok out) :
    out.st.speed = st.speed := by
  simp only [stepIter] at h
  split at h
  · cases h; rfl
  · split at h
    · cases h
    · split at h
      · cases h
      · cases h; split <;> split <;> rfl

theorem stepIter_ok_size {st : DlState} {item : Except Nat (List Nat)}
    {env : IterEnv} {out : StepOut} (h : stepIter st item env = Except.ok out)
    (hs : st.size_on_disk = st.fileData.length) :
    out.st.size_on_disk = out.st.fileData.length := by
  simp only [stepIter] at h
  split at h
  · cases h; exact hs
  · split at h
    · cases h
    · split at h
      · cases h
      · cases h; split <;> split <;> simp [hs]

theorem stepIter_ok_file {st : DlState} {item : Except Nat (List Nat)}
    {env : IterEnv} {out : StepOut} (h : stepIter st item env = Except.ok out) :
    ∃ w : List Nat, out.st.fileData = st.fileData ++ w := by
  simp only [stepIter] at h
  split at h
  · cases h; exact ⟨[], by simp⟩
  · split at h
    · cases h
    · split at h
      · cases h
      · cases h; split <;> split <;> exact ⟨_, rfl⟩

theorem stepIter_err {st : DlState} {item : Except Nat (List Nat)}
    {env : IterEnv} {e : DlErr} {st' : DlState}
    (h : stepIter st item env = Except.error (e, st')) :
    st' = { st with running := env.runningNow } := by
  simp only [stepIter] at h
  split at h
  · cases h
  · split at h
    · cases h; rfl
    · split at h
      · cases h; rfl
      · cases h

/-- C2: on stream exhaustion without error the loop epilogue sets
`complete = true`, `running = false`, `bytes_per_sec = 0`; on a chunk-read
or write failure the loop surfaces the error with `complete` still false
and `size_on_disk` equal to exactly the number of bytes written (the file
only ever grows); and an iteration whose stream item is an error, sampled
while running, returns that very chunk error to the caller. -/
theorem c2_transfer_loop_exit (st : DlState)
    (evs : List (Except Nat (List Nat) × IterEnv))
    (hsize : st.size_on_disk = st.fileData.length)
    (hc : st.complete = false) :
    (∀ st', single_thread_dl st evs = Except.ok st' →
        st'.complete = true ∧ st'.running = false ∧ st'.bytes_per_sec = 0) ∧
    (∀ e st', single_thread_dl st evs = Except.error (e, st') →
        st'.complete = false ∧ st'.size_on_disk = st'.fileData.length ∧
        ∃ w : List Nat, st'.fileData = st.fileData ++ w) ∧
    (∀ (ec : Nat) (env : IterEnv) rest, env.runningNow = true →
        single_thread_dl st ((Except.error ec, env) :: rest) =
          Except.error (DlErr.chunk ec, { st with running := true })) := by
  have herrstep : ∀ (st1 : DlState) (ec : Nat) (env : IterEnv),
      env.runningNow = true →
      stepIter st1 (Except.error ec) env =
        Except.error (DlErr.chunk ec, { st1 with running := true }) := by
    intro st1 ec env henv
    simp [stepIter, henv]
  induction evs generalizing st with
  | nil =>
    refine ⟨fun st' h => ?_, fun e st' h => ?_,
      fun ec env rest henv => by simp only [single_thread_dl, herrstep st ec env henv]⟩
    · simp only [single_thread_dl] at h
      cases h
      exact ⟨rfl, rfl, rfl⟩
    · simp only [single_thread_dl] at h
      cases h
  | cons ev rest ih =>
    obtain ⟨item, env⟩ := ev
    refine ⟨fun st' h => ?_, fun e st' h => ?_,
      fun ec env1 rest1 henv => by simp only [single_thread_dl, herrstep st ec env1 henv]⟩
    · simp only [single_thread_dl] at h
      split at h
      · cases h
      next out hout =>
        exact (ih out.st (stepIter_ok_size hout hsize)
          ((stepIter_ok_complete hout).trans hc)).1 st' h
    · simp only [single_thread_dl] at h
      split at h
      · rename_i p herr
        cases h
        have hst := stepIter_err herr
        subst hst
        exact ⟨hc, hsize, ⟨[], by simp⟩⟩
      next out hout =>
        obtain ⟨hcpl, hsz, w, hw⟩ := (ih out.st (stepIter_ok_size hout hsize)
          ((stepIter_ok_complete hout).trans hc)).2.1 e st' h
        obtain ⟨w0, hw0⟩ := stepIter_ok_file hout
        exact ⟨hcpl, hsz, w0 ++ w, by rw [hw, hw0, List.append_assoc]⟩

theorem c2_transfer_loop_exit_witness :
    ((⟨0, 0, 0, true, false, [], 0⟩ : DlState).size_on_disk =
        (⟨0, 0, 0, true, false, [], 0⟩ : DlState).fileData.length) ∧
    ((⟨0, 0, 0, true, false, [], 0⟩ : DlState).complete = false) ∧
    ((∀ st', single_thread_dl ⟨0, 0, 0, true, false, [], 0⟩
          [(Except.ok [5, 6], ⟨true, false, true, true⟩)] = Except.ok st' →
        st'.complete = true ∧ st'.running = false ∧ st'.bytes_per_sec = 0) ∧
     (∀ e st', single_thread_dl ⟨0, 0, 0, true, false, [], 0⟩
          [(Except.ok [5, 6], ⟨true, false, true, true⟩)] =
            Except.error (e, st') →
        st'.complete = false ∧ st'.size_on_disk = st'.fileData.length ∧
        ∃ w : List Nat, st'.fileData =
          (⟨0, 0, 0, true, false, [], 0⟩ : DlState).fileData ++ w) ∧
     (∀ (ec : Nat) (env : IterEnv) rest, env.runningNow = true →
        single_thread_dl ⟨0, 0, 0, true, false, [], 0⟩
            ((Except.error ec, env) :: rest) =
          Except.error (DlErr.chunk ec,
            { (⟨0, 0, 0, true, false, [], 0⟩ : DlState) with running := true }))) :=
  ⟨rfl, rfl, c2_transfer_loop_exit ⟨0, 0, 0, true, false, [], 0⟩
    [(Except.ok [5, 6], ⟨true, false, true, true⟩)] rfl rfl⟩

/-- C3: in an iteration where the sampled `running` flag is false the pulled
chunk is discarded (the output file and `size_on_disk` are unchanged),
`bytes_per_sec` is stored as 0, the branch sleeps the 2-second poll interval
(`pausedSkip`), and the loop continues with the remaining stream items. -/
theorem c3_paused_iteration (st : DlState) (item : Except Nat (List Nat))
    (env : IterEnv) (rest : List (Except Nat (List Nat) × IterEnv))
    (h : env.runningNow = false) :
    ∃ out : StepOut, stepIter st item env = Except.ok out ∧
      out.st.fileData = st.fileData ∧
      out.st.size_on_disk = st.size_on_disk ∧
      out.st.bytes_per_sec = 0 ∧
      out.pausedSkip = true ∧
      single_thread_dl st ((item, env) :: rest) = single_thread_dl out.st rest := by
  have hstep : stepIter st item env =
      Except.ok ⟨{ st with running := env.runningNow, bytes_per_sec := 0 },
        true, false, false, false⟩ := by
    simp [stepIter, h]
  refine ⟨⟨{ st with running := env.runningNow, bytes_per_sec := 0 },
    true, false, false, false⟩, hstep, rfl, rfl, rfl, rfl, ?_⟩
  simp only [single_thread_dl, hstep]

theorem c3_paused_iteration_witness :
    ((⟨false, true, true, true⟩ : IterEnv).runningNow = false) ∧
    (∃ out : StepOut,
      stepIter ⟨9, 3, 7, true, false, [1, 2, 3], 0⟩ (Except.ok [4, 5])
          ⟨false, true, true, true⟩ = Except.ok out ∧
      out.st.fileData = (⟨9, 3, 7, true, false, [1, 2, 3], 0⟩ : DlState).fileData ∧
      out.st.size_on_disk = (⟨9, 3, 7, true, false, [1, 2, 3], 0⟩ : DlState).size_on_disk ∧
      out.st.bytes_per_sec = 0 ∧
      out.pausedSkip = true ∧
      single_thread_dl ⟨9, 3, 7, true, false, [1, 2, 3], 0⟩
          [(Except.ok [4, 5], ⟨false, true, true, true⟩)] =
        single_thread_dl out.st []) :=
  ⟨rfl, c3_paused_iteration ⟨9, 3, 7, true, false, [1, 2, 3], 0⟩
    (Except.ok [4, 5]) ⟨false, true, true, true⟩ [] rfl⟩

/-- Shared helper: within one iteration the throughput-window publish zeroes
the accumulator before the rate-limit check reads it, so both resets never
fire together. -/
theorem stepIter_not_both_resets {st : DlState} {item : Except Nat (List Nat)}
    {env : IterEnv} {out : StepOut} (hok : stepIter st item env = Except.ok out)
    (hw : out.windowReset = true) : out.limitReset = false := by
  simp only [stepIter] at hok
  split at hok
  · cases hok; cases hw
  · split at hok
    · cases hok
    · split at hok
      · cases hok
      · cases hok
        simp only at hw ⊢
        simp only [hw, if_pos, decide_eq_false_iff_not]
        omega

/-- C8 fails on the code: the throughput-window publish zeroes the
accumulator before the rate-limit check reads it, so even with a positive
speed limit no iteration can fire both resets. -/
theorem c8_counterexample :
    ¬ ∃ (st : DlState) (item : Except Nat (List Nat)) (env : IterEnv)
        (out : StepOut),
        stepIter st item env = Except.ok out ∧ 0 < st.speed ∧
        out.windowReset = true ∧ out.limitReset = true := by
  rintro ⟨st, item, env, out, hok, _hsp, hw, hl⟩
  rw [stepIter_not_both_resets hok hw] at hl
  cases hl

/-- C8 amended: the two resets are mutually exclusive within one iteration —
whenever the 1-second throughput publish/reset fires, the rate-limit reset
does not fire in the same iteration (the publish zeroes the accumulator the
rate-limit condition reads). -/
theorem c8_resets_mutually_exclusive (st : DlState)
    (item : Except Nat (List Nat)) (env : IterEnv) (out : StepOut)
    (h : stepIter st item env = Except.ok out) (_hs : 0 < st.speed)
    (hw : out.windowReset = true) : out.limitReset = false :=
  stepIter_not_both_resets h hw

/-! ### Range-support negotiation (C4) -/

/-- C4 fails on the code: `accept_ranges` trims the header value before
comparing, so the value " bytes" (not exactly "bytes") still reports range
support, whatever the manual probe would have said. -/
theorem c4_counterexample :
    range_support_of (some " bytes") none = true ∧ " bytes" ≠ "bytes" := by
  constructor
  · decide
  · decide

/-- C4 amended: with the accept-ranges header present, `range_support` is
true iff the header value **trimmed** equals "bytes" (and the probe result
is ignored); with it absent it equals the manual probe, which reports
support iff the request succeeded and the body is exactly one byte, any
transport failure giving false. -/
theorem c4_range_support_spec (v : String) (probe : Option (List Nat))
    (b : List Nat) :
    (range_support_of (some v) probe = true ↔ trimChars v.data = "bytes".data) ∧
    range_support_of none probe = manual_range_test probe ∧
    manual_range_test none = false ∧
    (manual_range_test (some b) = true ↔ b.length = 1) := by
  refine ⟨?_, rfl, rfl, ?_⟩
  · simp only [range_support_of, accept_ranges]
    split <;> simp_all
  · simp [manual_range_test]

/-! ### Recovery enumeration error propagation (C1) -/

/-- `collect::<Result<...>>` succeeds exactly when every element is `Ok`. -/
theorem collectExcept_ok_iff {ε α : Type} (xs : List (Except ε α)) :
    (∃ l, collectExcept xs = Except.ok l) ↔
    ∀ x ∈ xs, ∃ a, x = Except.ok a := by
  induction xs with
  | nil => simp [collectExcept]
  | cons x rest ih =>
    cases x with
    | error e => simp [collectExcept]
    | ok a =>
      simp only [collectExcept, List.mem_cons]
      constructor
      · rintro ⟨l, hl⟩
        cases hrest : collectExcept rest with
        | error e => rw [hrest] at hl; cases hl
        | ok l' =>
          intro y hy
          rcases hy with rfl | hy
          · exact ⟨a, rfl⟩
          · exact ih.mp ⟨l', hrest⟩ y hy
      · intro hall
        obtain ⟨l', hl'⟩ := ih.mpr (fun y hy => hall y (Or.inr hy))
        exact ⟨a :: l', by simp [hl', Except.map]⟩

/-- C1 fails on the code: with a malformed sidecar "a.metadl" and a healthy
sidecar "b.metadl" in the directory, `File2Dl::from` returns the first
entry's error and drops the task that entry "b.metadl" would have
reconstructed successfully. -/
theorem c1_counterexample :
    File2Dl_from
        [("a.metadl", FsNode.sidecar none),
         ("b.metadl", FsNode.sidecar (some ⟨"L", "n", "f.bin", 5, true, 0⟩)),
         ("f.bin", FsNode.payload 5)] "Downloads" 9 =
      Except.error (IoErr.deserialize "a.metadl") ∧
    from_entry
        [("a.metadl", FsNode.sidecar none),
         ("b.metadl", FsNode.sidecar (some ⟨"L", "n", "f.bin", 5, true, 0⟩)),
         ("f.bin", FsNode.payload 5)] "Downloads" 9 "b.metadl" =
      Except.ok ⟨"L", "n", 5, true, "f.bin", "Downloads", 0, 5, 0, false, true⟩ :=
  ⟨rfl, rfl⟩

/-- C1 amended: a filesystem or deserialization failure while reconstructing
any sidecar entry is fatal to the whole recovery operation — `File2Dl::from`
returns a list of tasks exactly when every scanned entry reconstructs, and
otherwise returns a single error and no tasks. -/
theorem c1_from_fails_whole_scan (fs : FsDir) (dir : String) (fuel : Nat) :
    (∃ l, File2Dl_from fs dir fuel = Except.ok l) ↔
    ∀ name ∈ get_metadata_files fs,
      ∃ t, from_entry fs dir fuel name = Except.ok t := by
  rw [File2Dl_from, collectExcept_ok_iff]
  constructor
  · intro h name hname
    exact h (from_entry fs dir fuel name) (List.mem_map_of_mem _ hname)
  · intro h x hx
    obtain ⟨name, hname, rfl⟩ := List.mem_map.mp hx
    exact h name hname

/-! ### File-namer characterization and recovery lemmas -/

theorem fsLookup_mem_names {fs : FsDir} {name : String} {node : FsNode}
    (h : fsLookup fs name = some node) : name ∈ fsNames fs := by
  rcases hfind : fs.find? (fun p => p.1 == name) with _ | p
  · rw [fsLookup, hfind] at h; cases h
  · have hmem := List.mem_of_find?_eq_some hfind
    have hpred : p.1 = name := by simpa using List.find?_some hfind
    exact List.mem_map.mpr ⟨p, hmem, hpred⟩

/-- What the namer loop returns: the candidate at the first free index at or
after `start`, every smaller index from `start` on being taken. -/
theorem genLoopIdx_spec (stem ext : String) (dirNames : List String) :
    ∀ (fuel start n : Nat) (r : String),
      genLoopIdx stem ext dirNames fuel start = some (n, r) →
      r = cand stem ext n ∧ start ≤ n ∧ r ∉ dirNames ∧
        ∀ m, start ≤ m → m < n → cand stem ext m ∈ dirNames := by
  intro fuel
  induction fuel with
  | zero => intro start n r h; cases h
  | succ fuel ih =>
    intro start n r h
    simp only [genLoopIdx] at h
    split at h
    · rename_i hc
      obtain ⟨h1, h2, h3, h4⟩ := ih (start + 1) n r h
      refine ⟨h1, by omega, h3, fun m hm1 hm2 => ?_⟩
      rcases Nat.eq_or_lt_of_le hm1 with rfl | hlt
      · exact hc
      · exact h4 m (by omega) hm2
    · rename_i hc
      cases h
      exact ⟨rfl, Nat.le_refl _, hc, fun m hm1 hm2 => absurd hm2 (by omega)⟩

theorem generate_of_not_mem {init r : String} {dirNames : List String}
    {fuel : Nat} (h : generate_name_on_disk init dirNames fuel = some r)
    (hmem : init ∉ dirNames) : r = init := by
  rw [generate_name_on_disk, if_neg hmem] at h
  cases h
  rfl

theorem generate_of_mem {init r : String} {dirNames : List String}
    {fuel : Nat} (h : generate_name_on_disk init dirNames fuel = some r)
    (hmem : init ∈ dirNames) :
    ∃ n, 1 ≤ n ∧ r = cand (fileStemExt init).1 (fileStemExt init).2 n ∧
      r ∉ dirNames ∧
      ∀ m, 1 ≤ m → m < n →
        cand (fileStemExt init).1 (fileStemExt init).2 m ∈ dirNames := by
  rw [generate_name_on_disk, if_pos hmem] at h
  rcases hloop : genLoopIdx (fileStemExt init).1 (fileStemExt init).2 dirNames
      fuel 1 with _ | ⟨n, r'⟩
  · rw [hloop] at h; cases h
  · rw [hloop] at h
    cases h
    obtain ⟨h1, h2, h3, h4⟩ :=
      genLoopIdx_spec (fileStemExt init).1 (fileStemExt init).2 dirNames
        fuel 1 n r' hloop
    exact ⟨n, h2, h1, h3, h4⟩

/-- C5: reconstructing an entry whose record is `m` and whose on-disk file
has size `k` yields a task with `size_on_disk = k` and `complete` true
exactly when `k` equals the stored content length. -/
theorem c5_recovery_round_trip (fs : FsDir) (dir entry : String) (fuel : Nat)
    (m : MetaData) (k : Nat) (t : File2Dl)
    (hside : fsLookup fs entry = some (FsNode.sidecar (some m)))
    (hpay : fsLookup fs m.name_on_disk = some (FsNode.payload k))
    (h : from_entry fs dir fuel entry = Except.ok t) :
    t.size_on_disk = k ∧ (t.complete = true ↔ k = m.content_length) := by
  simp only [from_entry, hside, hpay] at h
  split at h
  · cases h
  · cases h
    exact ⟨rfl, by simp⟩

theorem c5_recovery_round_trip_witness :
    (fsLookup [("b.metadl", FsNode.sidecar (some ⟨"L", "n", "f.bin", 5, true, 0⟩)),
        ("f.bin", FsNode.payload 3)] "b.metadl" =
      some (FsNode.sidecar (some ⟨"L", "n", "f.bin", 5, true, 0⟩))) ∧
    (fsLookup [("b.metadl", FsNode.sidecar (some ⟨"L", "n", "f.bin", 5, true, 0⟩)),
        ("f.bin", FsNode.payload 3)] "f.bin" = some (FsNode.payload 3)) ∧
    ((⟨"L", "n", 5, true, "f.bin", "Downloads", 0, 3, 0, false, false⟩ :
        File2Dl).size_on_disk = 3 ∧
      ((⟨"L", "n", 5, true, "f.bin", "Downloads", 0, 3, 0, false, false⟩ :
        File2Dl).complete = true ↔ 3 = (⟨"L", "n", "f.bin", 5, true, 0⟩ :
          MetaData).content_length)) :=
  ⟨by decide, by decide,
    c5_recovery_round_trip
      [("b.metadl", FsNode.sidecar (some ⟨"L", "n", "f.bin", 5, true, 0⟩)),
       ("f.bin", FsNode.payload 3)] "Downloads" "b.metadl" 9
      ⟨"L", "n", "f.bin", 5, true, 0⟩ 3
      ⟨"L", "n", 5, true, "f.bin", "Downloads", 0, 3, 0, false, false⟩
      (by decide) (by decide) rfl⟩

/-- C6: a record without range support whose stored name still exists on
disk reconstructs to a task whose `name_on_disk` is re-generated — it
differs from the stored name and collides with nothing in the directory;
with range support the stored name is reused as-is. -/
theorem c6_nonresumable_rename (fs : FsDir) (dir entry : String) (fuel : Nat)
    (m : MetaData) (k : Nat) (t : File2Dl)
    (hside : fsLookup fs entry = some (FsNode.sidecar (some m)))
    (hpay : fsLookup fs m.name_on_disk = some (FsNode.payload k))
    (h : from_entry fs dir fuel entry = Except.ok t) :
    (m.range_support = false →
      t.name_on_disk ≠ m.name_on_disk ∧ t.name_on_disk ∉ fsNames fs) ∧
    (m.range_support = true → t.name_on_disk = m.name_on_disk) := by
  have hmem : m.name_on_disk ∈ fsNames fs := fsLookup_mem_names hpay
  simp only [from_entry, hside, hpay] at h
  rcases Bool.eq_false_or_eq_true m.range_support with hrs | hrs
  · rw [hrs] at h ⊢
    rw [if_pos rfl] at h
    cases h
    exact ⟨(fun hfalse => nomatch hfalse), fun _ => rfl⟩
  · rw [hrs] at h ⊢
    rw [if_neg (by simp)] at h
    split at h
    · cases h
    · rename_i nm hgen
      cases h
      obtain ⟨n, _, _, hfree, _⟩ := generate_of_mem hgen hmem
      have hneq : ¬ nm = m.name_on_disk :=
        fun heq => hfree (by rw [heq]; exact hmem)
      exact ⟨fun _ => ⟨hneq, hfree⟩, fun htrue => nomatch htrue⟩

theorem c6_nonresumable_rename_witness :
    (fsLookup [("b.metadl", FsNode.sidecar (some ⟨"L", "n", "f.bin", 5, false, 0⟩)),
        ("f.bin", FsNode.payload 3)] "b.metadl" =
      some (FsNode.sidecar (some ⟨"L", "n", "f.bin", 5, false, 0⟩))) ∧
    (from_entry [("b.metadl", FsNode.sidecar (some ⟨"L", "n", "f.bin", 5, false, 0⟩)),
        ("f.bin", FsNode.payload 3)] "Downloads" 9 "b.metadl" =
      Except.ok ⟨"L", "n", 5, false, "f_1.bin", "Downloads", 0, 3, 0, false, false⟩) ∧
    (((false : Bool) = false →
        ("f_1.bin" : String) ≠ "f.bin" ∧
        ("f_1.bin" : String) ∉ fsNames
          [("b.metadl", FsNode.sidecar (some ⟨"L", "n", "f.bin", 5, false, 0⟩)),
           ("f.bin", FsNode.payload 3)]) ∧
      ((false : Bool) = true → ("f_1.bin" : String) = "f.bin")) :=
  ⟨by decide, rfl,
    c6_nonresumable_rename
      [("b.metadl", FsNode.sidecar (some ⟨"L", "n", "f.bin", 5, false, 0⟩)),
       ("f.bin", FsNode.payload 3)] "Downloads" "b.metadl" 9
      ⟨"L", "n", "f.bin", 5, false, 0⟩ 3
      ⟨"L", "n", 5, false, "f_1.bin", "Downloads", 0, 3, 0, false, false⟩
      (by decide) (by decide) rfl⟩

/-- Invariant-carrying specification of repeated namer calls: starting from
a directory that contains the base name and every candidate up to index `k`,
each produced name is fresh, the names are pairwise distinct, and their
indices strictly increase and stay above `k`. -/
theorem genSeq_spec (init : String) (fuel : Nat) :
    ∀ (N : Nat) (dirNames : List String) (k : Nat) (l : List String),
      init ∈ dirNames →
      (∀ m, 1 ≤ m → m ≤ k →
        cand (fileStemExt init).1 (fileStemExt init).2 m ∈ dirNames) →
      genSeq init fuel dirNames N = some l →
      (∀ x ∈ l, x ∉ dirNames) ∧ l.Pairwise (fun a b => a ≠ b) ∧
      ∃ idxs : List Nat,
        l = idxs.map (cand (fileStemExt init).1 (fileStemExt init).2) ∧
        idxs.Chain' (fun a b => a < b) ∧ ∀ i ∈ idxs, k < i ∧ 1 ≤ i := by
  intro N
  induction N with
  | zero =>
    intro dir k l _ _ h
    cases h
    exact ⟨by simp, by simp, [], by simp, by simp, by simp⟩
  | succ N ih =>
    intro dir k l hinit hk h
    simp only [genSeq] at h
    rcases hg : generate_name_on_disk init dir fuel with _ | r
    · rw [hg] at h; cases h
    · rw [hg] at h
      change Option.map (fun l => r :: l) (genSeq init fuel (r :: dir) N) =
        some l at h
      rcases hrec : genSeq init fuel (r :: dir) N with _ | l'
      · rw [hrec] at h; cases h
      · rw [hrec] at h
        simp only [Option.map] at h
        cases h
        obtain ⟨n, hn1, hcand, hfree, hmin⟩ := generate_of_mem hg hinit
        have hkn : k < n := by
          by_contra hle
          push_neg at hle
          exact hfree (hcand ▸ hk n hn1 hle)
        have hinit' : init ∈ r :: dir := List.mem_cons_of_mem _ hinit
        have hk' : ∀ m, 1 ≤ m → m ≤ n →
            cand (fileStemExt init).1 (fileStemExt init).2 m ∈ r :: dir := by
          intro m hm1 hmn
          rcases Nat.lt_or_ge m n with hlt | hge
          · exact List.mem_cons_of_mem _ (hmin m hm1 hlt)
          · have hmeq : m = n := Nat.le_antisymm hmn hge
            subst hmeq
            rw [← hcand]
            exact List.mem_cons_self _ _
        obtain ⟨hnot', hpw', idxs', heq', hch', hbd'⟩ :=
          ih (r :: dir) n l' hinit' hk' hrec
        refine ⟨?_, ?_, n :: idxs', ?_, ?_, ?_⟩
        · intro x hx
          rcases List.mem_cons.mp hx with rfl | hx'
          · exact hfree
          · exact fun hxdir => hnot' x hx' (List.mem_cons_of_mem _ hxdir)
        · refine List.Pairwise.cons ?_ hpw'
          intro x hx heq
          exact hnot' x hx (heq ▸ List.mem_cons_self r dir)
        · simp [heq', hcand]
        · rw [List.chain'_cons']
          refine ⟨?_, hch'⟩
          intro b hb
          exact (hbd' b (List.mem_of_mem_head? hb)).1
        · intro i hi
          rcases List.mem_cons.mp hi with rfl | hi'
          · exact ⟨hkn, hn1⟩
          · obtain ⟨h1, h2⟩ := hbd' i hi'
            exact ⟨by omega, h2⟩

/-- C9: the namer returns the desired name when it is free; on a collision
it returns the first free candidate `stem_n.ext` with `n ≥ 1` minimal (all
smaller indices taken), which for an empty extension is the trailing-dot
name `stem_n.`; and across any sequence of collisions on the same base name
(each produced file added to the directory) the produced names are pairwise
distinct with strictly increasing indices. -/
theorem c9_file_namer (init : String) (dirNames : List String) (fuel : Nat)
    (r : String) (h : generate_name_on_disk init dirNames fuel = some r) :
    (init ∉ dirNames → r = init) ∧
    (init ∈ dirNames →
      ∃ n, 1 ≤ n ∧ r = cand (fileStemExt init).1 (fileStemExt init).2 n ∧
        r ∉ dirNames ∧
        (∀ m, 1 ≤ m → m < n →
          cand (fileStemExt init).1 (fileStemExt init).2 m ∈ dirNames) ∧
        ((fileStemExt init).2 = "" →
          r = (fileStemExt init).1 ++ "_" ++ Nat.repr n ++ ".")) ∧
    (∀ (N : Nat) (l : List String), init ∈ dirNames →
      genSeq init fuel dirNames N = some l →
      l.Pairwise (fun a b => a ≠ b) ∧
      ∃ idxs : List Nat,
        l = idxs.map (cand (fileStemExt init).1 (fileStemExt init).2) ∧
        idxs.Chain' (fun a b => a < b) ∧ ∀ i ∈ idxs, 1 ≤ i) := by
  refine ⟨fun hnot => generate_of_not_mem h hnot, fun hmem => ?_,
    fun N l hmem hseq => ?_⟩
  · obtain ⟨n, h1, h2, h3, h4⟩ := generate_of_mem h hmem
    refine ⟨n, h1, h2, h3, h4, fun hext => ?_⟩
    rw [h2, cand, hext, String.append_empty]
  · obtain ⟨_, hpw, idxs, he, hch, hbd⟩ :=
      genSeq_spec init fuel N dirNames 0 l hmem
        (fun m hm1 hm0 => absurd (Nat.le_trans hm1 hm0) (by omega)) hseq
    exact ⟨hpw, idxs, he, hch, fun i hi => (hbd i hi).2⟩

theorem c9_file_namer_witness :
    generate_name_on_disk "a" ["a"] 3 = some "a_1." ∧
    ((("a" : String) ∉ (["a"] : List String) → ("a_1." : String) = "a") ∧
     (("a" : String) ∈ (["a"] : List String) →
       ∃ n, 1 ≤ n ∧
         ("a_1." : String) = cand (fileStemExt "a").1 (fileStemExt "a").2 n ∧
         ("a_1." : String) ∉ (["a"] : List String) ∧
         (∀ m, 1 ≤ m → m < n →
           cand (fileStemExt "a").1 (fileStemExt "a").2 m ∈
             (["a"] : List String)) ∧
         ((fileStemExt "a").2 = "" →
           ("a_1." : String) = (fileStemExt "a").1 ++ "_" ++ Nat.repr n ++ ".")) ∧
     (∀ (N : Nat) (l : List String), ("a" : String) ∈ (["a"] : List String) →
       genSeq "a" 3 ["a"] N = some l →
       l.Pairwise (fun a b => a ≠ b) ∧
       ∃ idxs : List Nat,
         l = idxs.map (cand (fileStemExt "a").1 (fileStemExt "a").2) ∧
         idxs.Chain' (fun a b => a < b) ∧ ∀ i ∈ idxs, 1 ≤ i)) :=
  ⟨by decide, c9_file_namer "a" ["a"] 3 "a_1." (by decide)⟩

/-! ### Delete of a task from disk (C7) -/

/-- C7: the collaborator-facing delete removes `Downloads/{name}` and
`Downloads/.{name}.metadata`, but the latter never ends in ".metadl", so
the sidecar the recovery scan recognizes survives every such delete.  On
the concrete directory holding payload "file.bin" and its sidecar
"file.bin.metadl", the delete removes only the payload: the scan still
lists the sidecar, and the subsequent recovery enumeration fails on the
now-missing payload instead of no longer yielding the task. -/
theorem c7_sidecar_survives_delete :
    (∀ name : String,
        listEndsWith ("." ++ name ++ ".metadata").data ".metadl".data = false) ∧
    remove_selected_from_disk
        [("file.bin", FsNode.payload 3),
         ("file.bin.metadl",
           FsNode.sidecar (some ⟨"L", "n", "file.bin", 9, true, 0⟩))]
        "file.bin" =
      [("file.bin.metadl",
         FsNode.sidecar (some ⟨"L", "n", "file.bin", 9, true, 0⟩))] ∧
    get_metadata_files
        (remove_selected_from_disk
          [("file.bin", FsNode.payload 3),
           ("file.bin.metadl",
             FsNode.sidecar (some ⟨"L", "n", "file.bin", 9, true, 0⟩))]
          "file.bin") = ["file.bin.metadl"] ∧
    File2Dl_from
        (remove_selected_from_disk
          [("file.bin", FsNode.payload 3),
           ("file.bin.metadl",
             FsNode.sidecar (some ⟨"L", "n", "file.bin", 9, true, 0⟩))]
          "file.bin") "Downloads" 9 =
      Except.error (IoErr.notFound "file.bin") := by
  refine ⟨?_, by decide, by decide, rfl⟩
  intro name
  simp only [listEndsWith, decide_eq_false_iff_not]
  intro hcontra
  rw [String.data_append, String.data_append, List.reverse_append,
    List.take_append_of_le_length (by decide)] at hcontra
  exact absurd hcontra (by decide)

theorem c8_resets_mutually_exclusive_witness :
    (stepIter ⟨5, 0, 0, true, false, [], 0⟩ (Except.ok [1, 2])
        ⟨true, true, true, true⟩ =
      Except.ok ⟨⟨5, 2, 2, true, false, [1, 2], 0⟩, false, true, false, false⟩) ∧
    (0 < (⟨5, 0, 0, true, false, [], 0⟩ : DlState).speed) ∧
    ((⟨⟨5, 2, 2, true, false, [1, 2], 0⟩, false, true, false, false⟩ :
        StepOut).windowReset = true) ∧
    ((⟨⟨5, 2, 2, true, false, [1, 2], 0⟩, false, true, false, false⟩ :
        StepOut).limitReset = false) :=
  ⟨rfl, by decide, rfl,
    c8_resets_mutually_exclusive ⟨5, 0, 0, true, false, [], 0⟩
      (Except.ok [1, 2]) ⟨true, true, true, true⟩
      ⟨⟨5, 2, 2, true, false, [1, 2], 0⟩, false, true, false, false⟩
      rfl (by decide) rfl⟩

/-! ### URL validation (C10) -/

theorem splitsOf_any_iff (l : List Char) (f : List Char × List Char → Bool) :
    (splitsOf l).any f = true ↔ ∃ a b, l = a ++ b ∧ f (a, b) = true := by
  simp only [splitsOf, List.any_eq_true, List.mem_map, List.mem_range]
  constructor
  · rintro ⟨x, ⟨i, hi, rfl⟩, hf⟩
    exact ⟨l.take i, l.drop i, (List.take_append_drop i l).symm, hf⟩
  · rintro ⟨a, b, rfl, hf⟩
    refine ⟨((a ++ b).take a.length, (a ++ b).drop a.length),
      ⟨a.length, ?_, rfl⟩, ?_⟩
    · rw [List.length_append]; omega
    · rw [List.take_left, List.drop_left]; exact hf

/-- The regex search of `URL_RE` succeeds exactly when the input contains
two alphanumeric runs of length at least two separated by a dot. -/
theorem url_is_match_iff (u : List Char) :
    url_is_match u = true ↔ spec_has_dotted_alnum_pair u := by
  constructor
  · intro h
    rw [url_is_match, splitsOf_any_iff] at h
    obtain ⟨p1, rest0, rfl, h⟩ := h
    simp only at h
    rw [splitsOf_any_iff] at h
    obtain ⟨t, p2, rfl, h⟩ := h
    simp only at h
    rw [fullMatch, splitsOf_any_iff] at h
    obtain ⟨sch, rest1, rfl, h⟩ := h
    simp only [Bool.and_eq_true] at h
    obtain ⟨_hsch, h⟩ := h
    rw [splitsOf_any_iff] at h
    obtain ⟨r1, rest2, rfl, h⟩ := h
    simp only [Bool.and_eq_true] at h
    obtain ⟨hr1, hdot⟩ := h
    cases rest2 with
    | nil => rw [dotRest] at hdot; cases hdot
    | cons c r2' =>
      simp only [dotRest, Bool.and_eq_true, decide_eq_true_eq] at hdot
      obtain ⟨hc, hdot⟩ := hdot
      subst hc
      rw [splitsOf_any_iff] at hdot
      obtain ⟨r2, opt, rfl, h2⟩ := hdot
      simp only [Bool.and_eq_true] at h2
      obtain ⟨hr2, _hopt⟩ := h2
      simp only [runGe2, Bool.and_eq_true, decide_eq_true_eq,
        List.all_eq_true] at hr1 hr2
      refine ⟨p1 ++ sch, r1, r2, opt ++ p2, ?_, hr1.1, hr1.2, hr2.1, hr2.2⟩
      simp [List.append_assoc]
  · rintro ⟨pre, r1, r2, post, rfl, h1len, h1al, h2len, h2al⟩
    rw [url_is_match, splitsOf_any_iff]
    refine ⟨pre, r1 ++ '.' :: (r2 ++ post), List.append_assoc pre r1 _, ?_⟩
    simp only
    rw [splitsOf_any_iff]
    refine ⟨r1 ++ '.' :: r2, post, by simp [List.append_assoc], ?_⟩
    simp only
    rw [fullMatch, splitsOf_any_iff]
    refine ⟨[], r1 ++ '.' :: r2, rfl, ?_⟩
    simp only
    rw [Bool.and_eq_true]
    refine ⟨rfl, ?_⟩
    rw [splitsOf_any_iff]
    refine ⟨r1, '.' :: r2, rfl, ?_⟩
    simp only
    rw [Bool.and_eq_true]
    constructor
    · simp only [runGe2, Bool.and_eq_true, decide_eq_true_eq, List.all_eq_true]
      exact ⟨h1len, h1al⟩
    · simp only [dotRest, Bool.and_eq_true, decide_eq_true_eq]
      refine ⟨by trivial, ?_⟩
      rw [splitsOf_any_iff]
      refine ⟨r2, [], by simp, ?_⟩
      rw [Bool.and_eq_true]
      constructor
      · simp only [runGe2, Bool.and_eq_true, decide_eq_true_eq,
          List.all_eq_true]
        exact ⟨h2len, h2al⟩
      · rfl

/-- C10: `Url::is_valid_url` accepts exactly the strings that contain,
anywhere within them, two alphanumeric runs of length at least 2 separated
by a dot (scheme optional, surrounding text ignored), and rejects with the
invalid-URL error exactly the rest. -/
theorem c10_url_validation (s : String) :
    (is_valid_url s = Except.ok () ↔ spec_has_dotted_alnum_pair s.data) ∧
    (is_valid_url s = Except.error UrlError.InvalidUrl ↔
      ¬ spec_has_dotted_alnum_pair s.data) := by
  have hm := url_is_match_iff s.data
  rw [is_valid_url]
  split
  · rename_i hcond
    exact ⟨iff_of_true rfl (hm.mp hcond),
      iff_of_false (fun h => nomatch h) (fun hn => hn (hm.mp hcond))⟩
  · rename_i hcond
    exact ⟨iff_of_false (fun h => nomatch h)
        (fun hs => hcond (hm.mpr hs)),
      iff_of_true rfl (fun hs => hcond (hm.mpr hs))⟩

end DlManager

section Evaluation
open DlManager

example :
    (single_thread_dl ⟨0, 0, 0, true, false, [], 0⟩
      [(Except.ok [1, 2, 3], ⟨true, false, true, true⟩)]) =
    Except.ok ⟨0, 3, 0, false, true, [1, 2, 3], 3⟩ := rfl

example :
    (single_thread_dl ⟨0, 0, 0, true, false, [], 0⟩
      [(Except.ok [1, 2, 3], ⟨true, false, true, true⟩),
       (Except.error 7, ⟨true, false, true, true⟩)]) =
    Except.error (DlErr.chunk 7, ⟨0, 3, 0, true, false, [1, 2, 3], 3⟩) := rfl

example : generate_name_on_disk "name.txt" [] 5 = some "name.txt" := by decide
example : generate_name_on_disk "name.txt" ["name.txt"] 5 = some "name_1.txt" := by decide
example : generate_name_on_disk "name.txt" ["name.txt", "name_1.txt"] 5 = some "name_2.txt" := by decide
example : generate_name_on_disk "name" ["name"] 5 = some "name_1." := by decide
example : fileStemExt ".bashrc" = (".bashrc", "") := by decide
example : fileStemExt "a.b.c" = ("a.b", "c") := by decide
example : url_is_match "ab.cd".data = true := by decide
example : url_is_match "see ab.cd here".data = true := by decide
example : url_is_match "a.b".data = false := by decide
example : url_is_match "http://ab.cd".data = true := by decide
example : url_is_match "".data = false := by decide
example : range_support_of (some " bytes ") none = true := by decide
example : range_support_of none (some [42]) = true := by decide

example :
    File2Dl_from
      [("a.metadl", FsNode.sidecar none),
       ("b.metadl", FsNode.sidecar (some ⟨"L", "n", "f.bin", 5, true, 0⟩)),
       ("f.bin", FsNode.payload 5)] "Downloads" 9 =
    Except.error (IoErr.deserialize "a.metadl") := rfl

example :
    from_entry
      [("a.metadl", FsNode.sidecar none),
       ("b.metadl", FsNode.sidecar (some ⟨"L", "n", "f.bin", 5, true, 0⟩)),
       ("f.bin", FsNode.payload 5)] "Downloads" 9 "b.metadl" =
    Except.ok ⟨"L", "n", 5, true, "f.bin", "Downloads", 0, 5, 0, false, true⟩ := rfl

example :
    remove_selected_from_disk
      [("f.bin", FsNode.payload 5),
       ("f.bin.metadl", FsNode.sidecar (some ⟨"L", "n", "f.bin", 9, true, 0⟩))]
      "f.bin" =
    [("f.bin.metadl", FsNode.sidecar (some ⟨"L", "n", "f.bin", 9, true, 0⟩))] := by decide

end Evaluation
